import Mathlib

/-!
# Verification of the psd-tools vector composer (`psd_tools/composer/vector.py`)

This file gives a shallow embedding of the vector-mask compositor, the
gradient-fill pipeline, the opacity application and the pattern-fill tiling
of `src/psd_tools/composer/vector.py`, and proves or refutes the frozen
claims about that module.

Modelling conventions:
* Python floats are modelled as exact rationals (the claims under study are
  about which expressions are computed, not about floating-point rounding).
* PIL images are modelled as structures carrying a mode string, a size and
  total pixel functions.  PIL band fills and lookup tables clamp values to
  the byte range; this is modelled by `clip8`.
* External rasterization (aggdraw) and the numpy trigonometric / random
  backends are modelled as explicit function parameters: the module under
  verification only assembles their inputs and combines their outputs.
* Fallible Python code is modelled with `Except String`; an uncaught Python
  exception becomes `Except.error`.
-/

set_option maxHeartbeats 1000000

namespace PsdVector

/-- Clamp an integer to the byte range 0..255.  Models the clamping PIL
applies in `Image.putalpha` band fills and in `Image.point` lookup tables. -/
def clip8 (v : Int) : Nat :=
  if v < 0 then 0 else if v > 255 then 255 else v.toNat

/-- Python `int()` truncation toward zero of an exact rational. -/
def py_trunc (q : ℚ) : Int :=
  if q < 0 then -Int.floor (-q) else Int.floor q

/-- Python `str.endswith('A')` for the single-character suffix used in the
source (`image.mode.endswith('A')`). -/
def ends_with_A (s : String) : Bool :=
  s.toList.getLast? = some 'A'

/-- Python `str.rstrip('A')` (used as `mode.rstrip('A')` in the source). -/
def rstrip_A (s : String) : String :=
  String.mk ((s.toList.reverse.dropWhile (fun c => c = 'A')).reverse)

/-! ## PIL grayscale images and ImageChops (vector-mask path) -/

/-- A single-band PIL image; `draw_vector_mask` works in mode `"L"`. -/
structure GrayImage where
  mode : String
  width : Nat
  height : Nat
  pix : Nat → Nat → Nat

/-- `PIL.Image.new(mode, (w, h), fill)`. -/
def image_new (mode : String) (w h fill : Nat) : GrayImage :=
  ⟨mode, w, h, fun _ _ => fill⟩

/-- `ImageChops.difference`: pointwise absolute difference. -/
def chops_difference (a b : GrayImage) : GrayImage :=
  ⟨a.mode, a.width, a.height,
   fun x y => max (a.pix x y) (b.pix x y) - min (a.pix x y) (b.pix x y)⟩

/-- `ImageChops.lighter`: pointwise maximum. -/
def chops_lighter (a b : GrayImage) : GrayImage :=
  ⟨a.mode, a.width, a.height, fun x y => max (a.pix x y) (b.pix x y)⟩

/-- `ImageChops.subtract` with default scale and offset: pointwise
`max(0, a - b)` on bytes (Nat subtraction saturates at 0). -/
def chops_subtract (a b : GrayImage) : GrayImage :=
  ⟨a.mode, a.width, a.height, fun x y => a.pix x y - b.pix x y⟩

/-- `ImageChops.darker`: pointwise minimum. -/
def chops_darker (a b : GrayImage) : GrayImage :=
  ⟨a.mode, a.width, a.height, fun x y => min (a.pix x y) (b.pix x y)⟩

/-- `ImageChops.invert`: pointwise `255 - a`. -/
def chops_invert (a : GrayImage) : GrayImage :=
  ⟨a.mode, a.width, a.height, fun x y => 255 - a.pix x y⟩

/-- `Image.crop((l, t, r, b))`: the result has size `(r - l, b - t)`; pixels
whose source coordinate falls outside the image are filled with 0. -/
def crop_image (img : GrayImage) (l t r b : Int) : GrayImage :=
  { mode := img.mode
    width := (r - l).toNat
    height := (b - t).toNat
    pix := fun x y =>
      if 0 ≤ (x : Int) + l ∧ (x : Int) + l < (img.width : Int) ∧
         0 ≤ (y : Int) + t ∧ (y : Int) + t < (img.height : Int)
      then img.pix ((x : Int) + l).toNat ((y : Int) + t).toNat
      else 0 }

/-! ## Sub-paths and the SVG symbol generator -/

/-- One bezier knot of a sub-path: its anchor and the two handles, as stored
(normalized coordinates, component order as in the file format). -/
structure Knot where
  anchor : ℚ × ℚ
  leaving : ℚ × ℚ
  preceding : ℚ × ℚ

/-- A sub-path: a knot list, a closed flag and the boolean-operator code. -/
structure SubPath where
  knots : List Knot
  closed : Bool
  operation : Nat

/-- A token of the textual aggdraw SVG symbol built by `_generate_symbol`. -/
inductive SymTok where
  | cmd (s : String)
  | num (q : ℚ)

/-- The knot pairs iterated by `_generate_symbol`:
`zip(path, path[1:] + path[0:1])` when closed, `zip(path, path[1:])` when
open. -/
def subpath_pairs (p : SubPath) : List (Knot × Knot) :=
  if p.closed then p.knots.zip (p.knots.drop 1 ++ p.knots.take 1)
  else p.knots.zip (p.knots.drop 1)

/-- `_generate_symbol(path, width, height)`: the token sequence of the SVG
path handed to aggdraw.  Every coordinate pair is emitted as
(second component times width, first component times height). -/
def generate_symbol (p : SubPath) (width height : ℚ) : List SymTok :=
  match p.knots with
  | [] => []
  | k0 :: _ =>
    [SymTok.cmd "M", SymTok.num (k0.anchor.2 * width),
     SymTok.num (k0.anchor.1 * height), SymTok.cmd "C"] ++
    (subpath_pairs p).flatMap (fun pq =>
      [SymTok.num (pq.1.leaving.2 * width), SymTok.num (pq.1.leaving.1 * height),
       SymTok.num (pq.2.preceding.2 * width), SymTok.num (pq.2.preceding.1 * height),
       SymTok.num (pq.2.anchor.2 * width), SymTok.num (pq.2.anchor.1 * height)]) ++
    (if p.closed then [SymTok.cmd "Z"] else [])

/-- The numeric tokens of a symbol, in order. -/
def num_toks : List SymTok → List ℚ
  | [] => []
  | SymTok.cmd _ :: rest => num_toks rest
  | SymTok.num q :: rest => q :: num_toks rest

/-- Specification side of claim C6: the points whose scaled coordinate
pairs the symbol generator must emit, in order - the first anchor, then for
each consecutive knot pair (wrapping from the last knot back to the first
when the path is closed) the leaving handle, the preceding handle and the
anchor of the pair. -/
def sym_points (p : SubPath) : List (ℚ × ℚ) :=
  match p.knots with
  | [] => []
  | k0 :: _ =>
    k0.anchor ::
      (subpath_pairs p).flatMap (fun pq => [pq.1.leaving, pq.2.preceding, pq.2.anchor])

/-- The external aggdraw rasterizer, abstracted: it receives the symbol
tokens and transforms the pixel content of the image drawn into.  aggdraw
draws in place, so the image size and mode cannot change. -/
def RasterBackend : Type :=
  List SymTok → (Nat → Nat → Nat) → (Nat → Nat → Nat)

/-- `_draw_subpath(subpath, width, height)`: a fresh all-zero `'L'` image of
the full canvas size, drawn into by the rasterizer using the generated
symbol. -/
def draw_subpath (backend : RasterBackend) (sp : SubPath) (w h : Nat) : GrayImage :=
  { mode := "L", width := w, height := h
    pix := backend (generate_symbol sp (w : ℚ) (h : ℚ)) (fun _ _ => 0) }

/-! ## The vector-mask compositor -/

/-- The fields of the layer consumed by `draw_vector_mask`. -/
structure VectorMaskLayer where
  psdWidth : Nat
  psdHeight : Nat
  initialFillRule : Nat
  paths : List SubPath
  bboxLeft : Int
  bboxTop : Int
  bboxRight : Int
  bboxBottom : Int

/-- One iteration of the loop in `draw_vector_mask`: rasterize the sub-path,
dispatch on the operator code (0 difference, 1 lighter, 2 invert-if-first
then subtract, 3 invert-if-first then darker), and clear the first flag. -/
def mask_step (backend : RasterBackend) (w h : Nat)
    (st : GrayImage × Bool) (sp : SubPath) : GrayImage × Bool :=
  (if sp.operation = 0 then chops_difference st.1 (draw_subpath backend sp w h)
   else if sp.operation = 1 then chops_lighter st.1 (draw_subpath backend sp w h)
   else if sp.operation = 2 then
     chops_subtract (if st.2 then chops_invert st.1 else st.1)
       (draw_subpath backend sp w h)
   else if sp.operation = 3 then
     chops_darker (if st.2 then chops_invert st.1 else st.1)
       (draw_subpath backend sp w h)
   else st.1, false)

/-- The accumulator of `draw_vector_mask` after the sub-path loop, before
the final crop: starts from a uniform `255 * initial_fill_rule` image. -/
def vector_mask_accum (backend : RasterBackend) (layer : VectorMaskLayer) : GrayImage :=
  (layer.paths.foldl (mask_step backend layer.psdWidth layer.psdHeight)
    (image_new "L" layer.psdWidth layer.psdHeight (255 * layer.initialFillRule), true)).1

/-- `draw_vector_mask(layer)`: the combined mask cropped to the layer
bounding box. -/
def draw_vector_mask (backend : RasterBackend) (layer : VectorMaskLayer) : GrayImage :=
  crop_image (vector_mask_accum backend layer)
    layer.bboxLeft layer.bboxTop layer.bboxRight layer.bboxBottom

/-- 255 for a covered pixel, 0 for an uncovered one. -/
def bool_byte (b : Bool) : Nat := if b then 255 else 0

/-- Specification side of claim C2: the boolean set algebra of one sub-path
step.  Exclude (0) is symmetric difference, Union (1) is disjunction,
SubtractInverted (2) complements the accumulator if and only if this is the
first sub-path and then removes the plane, IntersectInverted (3) likewise
complements on first and then intersects; the first flag is cleared after
every sub-path, whatever its operator. -/
def bool_mask_step (st : Bool × Bool) (sp : Nat × Bool) : Bool × Bool :=
  (if sp.1 = 0 then xor st.1 sp.2
   else if sp.1 = 1 then st.1 || sp.2
   else if sp.1 = 2 then (if st.2 then !st.1 else st.1) && !sp.2
   else if sp.1 = 3 then (if st.2 then !st.1 else st.1) && sp.2
   else st.1, false)

/-- The boolean abstraction of one rasterized sub-path at one pixel: its
operator code and whether the plane covers the pixel. -/
def subpath_bool (backend : RasterBackend) (w h x y : Nat) (sp : SubPath) : Nat × Bool :=
  (sp.operation, (draw_subpath backend sp w h).pix x y == 255)

/-- A rasterizer that covers every pixel (used by closed witnesses). -/
def full_backend : RasterBackend := fun _ _ => fun _ _ => 255

/-- A concrete two-sub-path layer: union of a full plane, then subtract of a
full plane, from an empty initial fill. -/
def demo_layer : VectorMaskLayer :=
  { psdWidth := 2, psdHeight := 2, initialFillRule := 0
    paths := [⟨[], false, 1⟩, ⟨[], false, 2⟩]
    bboxLeft := 0, bboxTop := 0, bboxRight := 2, bboxBottom := 2 }

/-- A rasterizer that draws nothing (an empty symbol draws nothing). -/
def id_backend : RasterBackend := fun _ f => f

/-- A concrete closed two-knot sub-path. -/
def demo_subpath : SubPath :=
  ⟨[⟨(0, 0), (0, 1), (1, 0)⟩, ⟨(1/2, 1/2), (1/4, 3/4), (3/4, 1/4)⟩], true, 1⟩

/-- A pathless layer whose bounding box sticks out of the 1-by-1 canvas. -/
def out_of_canvas_layer : VectorMaskLayer :=
  { psdWidth := 1, psdHeight := 1, initialFillRule := 1, paths := []
    bboxLeft := 0, bboxTop := 0, bboxRight := 2, bboxBottom := 1 }

/-- A pathless layer whose bounding box is the whole 2-by-2 canvas. -/
def in_canvas_layer : VectorMaskLayer :=
  { psdWidth := 2, psdHeight := 2, initialFillRule := 1, paths := []
    bboxLeft := 0, bboxTop := 0, bboxRight := 2, bboxBottom := 2 }

/-! ## Multi-band fill images and opacity application -/

/-- A PIL color image as used by the fill functions: a mode string, a size,
the color bands and the alpha band (meaningful when the mode ends in 'A'). -/
structure FillImage where
  mode : String
  width : Nat
  height : Nat
  colorPix : Nat → Nat → List Nat
  alphaPix : Nat → Nat → Nat

/-- `Image.putalpha` with a band: replaces the alpha channel, promoting the
mode by appending 'A' when it does not carry alpha yet. -/
def put_alpha_band (img : FillImage) (a : Nat → Nat → Nat) : FillImage :=
  if ends_with_A img.mode then { img with alphaPix := a }
  else { img with mode := img.mode ++ "A", alphaPix := a }

/-- `_apply_opacity(image, setting)` with the opacity already extracted:
no-op at 100; with an alpha channel, each alpha value `x` becomes
`int(x * opacity / 100.)`; without one, `image.putalpha(int(opacity * 255))`
fills a uniform alpha band (clamped to a byte by PIL). -/
def apply_opacity (opacity : Int) (img : FillImage) : FillImage :=
  if opacity ≠ 100 then
    if ends_with_A img.mode then
      put_alpha_band img
        (fun x y => clip8 (py_trunc ((img.alphaPix x y : ℚ) * (opacity : ℚ) / 100)))
    else
      put_alpha_band img (fun _ _ => clip8 (opacity * 255))
  else img

/-- `_apply_opacity(image, setting)` as actually called on the result of
`_apply_color_map`, which may be `None`: when the opacity differs from 100
the attribute access `image.mode` on `None` raises `AttributeError`. -/
def apply_opacity_checked (opacity : Int) (img : Option FillImage) :
    Except String (Option FillImage) :=
  if opacity ≠ 100 then
    match img with
    | none => Except.error "AttributeError: NoneType object has no attribute mode"
    | some i => Except.ok (some (apply_opacity opacity i))
  else Except.ok img

/-! ## Color stops -/

/-- A color stop of the gradient descriptor: raw location in 0..4096 and the
stored channel values. -/
structure GradStop where
  location : Int
  color : List ℚ

/-- A transparency stop: raw location and opacity percent. -/
structure TransStop where
  location : Int
  opacity : ℚ

/-- The mode-dependent unit scalar of `_apply_color_map`:
`{'RGB': 1.0, 'L': 2.55, 'CMYK': 2.55}.get(mode, 1.0)`. -/
def color_stop_scalar (mode : String) : ℚ :=
  if mode = "RGB" then 1
  else if mode = "L" then 2.55
  else if mode = "CMYK" then 2.55
  else 1

/-- One iteration of the stop-collection loop: if the previous collected
location equals the new one, pop it, then append the new entry.  The X and
Y lists of the source are kept in lockstep, modelled as one list of pairs. -/
def push_last {γ : Type} (L : List (ℚ × γ)) (p : ℚ × γ) : List (ℚ × γ) :=
  if (L.getLast?).map Prod.fst = some p.1 then L.dropLast ++ [p] else L ++ [p]

/-- The collected entry of one color stop: normalized location
`int(location) / 4096.` and the scalar-scaled channel tuple. -/
def stop_point (scalar : ℚ) (s : GradStop) : ℚ × List ℚ :=
  ((s.location : ℚ) / 4096, s.color.map (fun c => scalar * c))

/-- The color-stop collection loop of `_apply_color_map`. -/
def build_stops (scalar : ℚ) (stops : List GradStop) : List (ℚ × List ℚ) :=
  stops.foldl (fun L s => push_last L (stop_point scalar s)) []

/-- The collected entry of one transparency stop: normalized location and
`opacity * 2.55`. -/
def trans_point (s : TransStop) : ℚ × ℚ :=
  ((s.location : ℚ) / 4096, s.opacity * 2.55)

/-- The transparency-stop collection loop of `_apply_color_map`. -/
def build_stops_alpha (stops : List TransStop) : List (ℚ × ℚ) :=
  stops.foldl (fun L s => push_last L (trans_point s)) []

/-- Specification-side description of the collection loop: collapse
adjacent entries sharing a location, keeping the later one. -/
def collapse_adj {γ : Type} : List (ℚ × γ) → List (ℚ × γ)
  | [] => []
  | [p] => [p]
  | p :: q :: r => if p.1 = q.1 then collapse_adj (q :: r) else p :: collapse_adj (q :: r)

/-- Specification side of claim C7: keep only the last entry at each
location, anywhere in the list. -/
def keep_last {γ : Type} (l : List (ℚ × γ)) : List (ℚ × γ) :=
  l.foldr (fun p acc =>
    if acc.any (fun q => decide (q.1 = p.1)) then acc else p :: acc) []

/-- Specification side of claim C7 on raw stops: keep only the last stop at
each raw location. -/
def keep_last_stops (l : List GradStop) : List GradStop :=
  l.foldr (fun s acc =>
    if acc.any (fun t => decide (t.location = s.location)) then acc else s :: acc) []

/-- `if len(X) == 1: X = [0., 1.]; Y = [Y[0], Y[0]]`. -/
def expand_single {γ : Type} (L : List (ℚ × γ)) : List (ℚ × γ) :=
  match L with
  | [p] => [(0, p.2), (1, p.2)]
  | _ => L

/-- `scipy.interpolate.interp1d(X, Y, axis=0, bounds_error=False,
fill_value=(Y[0], Y[-1]))` evaluated at one point, for tuple-valued Y:
piecewise-linear with clamping to the end values. -/
def interp1d_vec : List (ℚ × List ℚ) → ℚ → List ℚ
  | [], _ => []
  | [p], _ => p.2
  | p :: q :: rest, z =>
    if z ≤ p.1 then p.2
    else if z ≤ q.1 then
      List.zipWith (fun y1 y2 => y1 + (y2 - y1) * (z - p.1) / (q.1 - p.1)) p.2 q.2
    else interp1d_vec (q :: rest) z

/-- The scalar-valued interpolant used for the transparency stops. -/
def interp1d_scalar : List (ℚ × ℚ) → ℚ → ℚ
  | [], _ => 0
  | [p], _ => p.2
  | p :: q :: rest, z =>
    if z ≤ p.1 then p.2
    else if z ≤ q.1 then p.2 + (q.2 - p.2) * (z - p.1) / (q.1 - p.1)
    else interp1d_scalar (q :: rest) z

/-- `numpy` `.astype(np.uint8)` on a C-truncated value: truncate toward zero
and wrap modulo 256. -/
def to_uint8 (q : ℚ) : Nat :=
  ((py_trunc q) % 256).toNat

/-! ## Coordinate field generator -/

/-- Python float `%` for a positive modulus (`angle % 90`): floor-based. -/
def qmod (a b : ℚ) : ℚ := a - b * ⌊a / b⌋

/-- `np.linspace(lo, hi, n)`: `n` samples, both endpoints included. -/
def np_linspace (lo hi : ℚ) (n : Nat) : List ℚ :=
  if n = 0 then []
  else if n = 1 then [lo]
  else (List.range n).map (fun (i : Nat) => lo + (hi - lo) * (i : ℚ) / ((n : ℚ) - 1))

/-- `np.meshgrid(xs, ys)` with default indexing: both results have
`ys.length` rows of `xs.length` entries; X repeats `xs` in every row, Y is
constant `ys[i]` along row `i`. -/
def np_meshgrid (xs ys : List ℚ) : List (List ℚ) × List (List ℚ) :=
  (ys.map (fun _ => xs), ys.map (fun y => xs.map (fun _ => y)))

/-- The effective scale of `draw_gradient_fill`:
`scale * ((90 - ratio)/90 * w + ratio/90 * h)` with `ratio = angle % 90`
and `scale` the already-normalized scale factor (`scalePercent / 100`). -/
def effective_scale (w h : Nat) (angle scale : ℚ) : ℚ :=
  scale * ((90 - qmod angle 90) / 90 * (w : ℚ) + (qmod angle 90) / 90 * (h : ℚ))

/-- The coordinate fields of `draw_gradient_fill`:
`np.meshgrid(np.linspace(-w/s, w/s, w), np.linspace(-h/s, h/s, h))`. -/
def gradient_mesh (w h : Nat) (angle scale : ℚ) : List (List ℚ) × List (List ℚ) :=
  np_meshgrid
    (np_linspace (-(w : ℚ) / effective_scale w h angle scale)
      ((w : ℚ) / effective_scale w h angle scale) w)
    (np_linspace (-(h : ℚ) / effective_scale w h angle scale)
      ((h : ℚ) / effective_scale w h angle scale) h)

/-- Entry `i j` of a matrix stored as a list of rows (0 outside). -/
def mat_entry (M : List (List ℚ)) (i j : Nat) : ℚ :=
  (M.getD i []).getD j 0

/-! ## Gradient fill pipeline -/

/-- Availability of the optional backends: only the numpy import is guarded
by try/except in the source. -/
structure Deps where
  numpyAvailable : Bool
  scipyAvailable : Bool

/-- The gradient kind enum of the descriptor. -/
inductive GradientKind where
  | linear
  | radial
  | angle
  | reflected
  | diamond
  | other (s : String)

/-- The gradient form enum of the descriptor. -/
inductive GradientForm where
  | colorNoise
  | customStops
  | other (s : String)

/-- The gradient descriptor consumed by `_apply_color_map`. -/
structure GradDesc where
  form : GradientForm
  colors : List GradStop
  transparency : Option (List TransStop)

/-- The fill setting consumed by `draw_gradient_fill`. -/
structure GradientSetting where
  angle : ℚ
  scalePercent : ℚ
  reverse : Bool
  opacity : Int
  kind : GradientKind
  gradient : GradDesc

/-- The five numpy shape functions (they use trigonometry, an external
numeric backend for this module), abstracted as parameters. -/
structure ShapeBackend where
  linear : List (List ℚ) → List (List ℚ) → ℚ → List (List ℚ)
  radial : List (List ℚ) → List (List ℚ) → List (List ℚ)
  angle : List (List ℚ) → List (List ℚ) → ℚ → List (List ℚ)
  reflected : List (List ℚ) → List (List ℚ) → ℚ → List (List ℚ)
  diamond : List (List ℚ) → List (List ℚ) → ℚ → List (List ℚ)

/-- The noise-gradient branch of `_apply_color_map` (numpy random number
generation and scipy filters, external backends), abstracted. -/
def NoiseBackend : Type :=
  GradDesc → List (List ℚ) → String → FillImage

/-- Pointwise map over a matrix. -/
def mat_map (f : ℚ → ℚ) (M : List (List ℚ)) : List (List ℚ) :=
  M.map (List.map f)

/-- `np.ones((h, w)) * v`. -/
def ones_times (w h : Nat) (v : ℚ) : List (List ℚ) :=
  List.replicate h (List.replicate w v)

/-- `_apply_color_map(mode, grad, Z)`.  Imports numpy and scipy unguarded;
dispatches on the gradient form; builds the stop interpolant and the pixel
array; unknown forms log and return `None`. -/
def apply_color_map (deps : Deps) (noiseB : NoiseBackend) (mode : String)
    (grad : GradDesc) (Z : List (List ℚ)) : Except String (Option FillImage) :=
  if ¬ deps.numpyAvailable then Except.error "ImportError: No module named numpy"
  else if ¬ deps.scipyAvailable then Except.error "ImportError: No module named scipy"
  else
    match grad.form with
    | GradientForm.colorNoise => Except.ok (some (noiseB grad Z mode))
    | GradientForm.customStops =>
      let L := build_stops (color_stop_scalar mode) grad.colors
      if L = [] then Except.error "AssertionError"
      else
        let L1 := expand_single L
        let img : FillImage :=
          { mode := rstrip_A mode
            width := (Z.headD []).length
            height := Z.length
            colorPix := fun x y => (interp1d_vec L1 (mat_entry Z y x)).map to_uint8
            alphaPix := fun _ _ => 255 }
        match grad.transparency, ends_with_A mode with
        | some ts, true =>
          let A := build_stops_alpha ts
          if A = [] then Except.error "AssertionError"
          else
            let A1 := expand_single A
            Except.ok (some (put_alpha_band img
              (fun x y => to_uint8 (interp1d_scalar A1 (mat_entry Z y x)))))
        | some _, false => Except.ok (some img)
        | none, _ => Except.ok (some img)
    | GradientForm.other _ => Except.ok none

/-- `draw_gradient_fill(mode, size, setting)`: guarded numpy import, the
coordinate mesh, the shape dispatch (unknown kinds degrade to a uniform 0.5
field), clamping to [0, 1], optional reversal, the color map, and the final
opacity application on the possibly-`None` result. -/
def draw_gradient_fill (deps : Deps) (shapeB : ShapeBackend) (noiseB : NoiseBackend)
    (mode : String) (size : Nat × Nat) (setting : GradientSetting) :
    Except String (Option FillImage) :=
  if ¬ deps.numpyAvailable then Except.ok none
  else
    let XY := gradient_mesh size.1 size.2 setting.angle (setting.scalePercent / 100)
    let Z0 :=
      match setting.kind with
      | GradientKind.linear => shapeB.linear XY.1 XY.2 setting.angle
      | GradientKind.radial => shapeB.radial XY.1 XY.2
      | GradientKind.angle => shapeB.angle XY.1 XY.2 setting.angle
      | GradientKind.reflected => shapeB.reflected XY.1 XY.2 setting.angle
      | GradientKind.diamond => shapeB.diamond XY.1 XY.2 setting.angle
      | GradientKind.other _ => ones_times size.1 size.2 (1 / 2)
    let Z1 := mat_map (fun q => max 0 (min 1 q)) Z0
    let Z2 := if setting.reverse then mat_map (fun q => 1 - q) Z1 else Z1
    match apply_color_map deps noiseB mode setting.gradient Z2 with
    | Except.error e => Except.error e
    | Except.ok img => apply_opacity_checked setting.opacity img

/-! ## Pattern fill tiling -/

/-- The resize step of `draw_pattern_fill`: when the scale differs from 1,
both dimensions become `max(1, int(dim * scale))`. -/
def resized_panel_size (pw ph : Nat) (scale : ℚ) : Nat × Nat :=
  if scale ≠ 1 then
    (max 1 (py_trunc ((pw : ℚ) * scale)).toNat,
     max 1 (py_trunc ((ph : ℚ) * scale)).toNat)
  else (pw, ph)

/-- Python `range(0, stop, step)` for a nonnegative stop and positive step. -/
def py_range_step (stop step : Nat) : List Nat :=
  if step = 0 then []
  else (List.range ((stop + step - 1) / step)).map (fun i => i * step)

/-- The paste coordinates of the tiling loops of `draw_pattern_fill`:
`for top in range(0, H, ph): for left in range(0, W, pw): paste (left, top)`. -/
def paste_positions (W H pw ph : Nat) : List (Nat × Nat) :=
  (py_range_step H ph).flatMap (fun top =>
    (py_range_step W pw).map (fun left => (left, top)))

/-! ## Concrete fixtures used by closed evaluations -/

/-- An opaque RGB test image. -/
def rgb_test_image : FillImage :=
  { mode := "RGB", width := 2, height := 2
    colorPix := fun _ _ => [10, 20, 30], alphaPix := fun _ _ => 255 }

/-- A grayscale-with-alpha test image with alpha 200. -/
def la_test_image : FillImage :=
  { mode := "LA", width := 2, height := 2
    colorPix := fun _ _ => [7], alphaPix := fun _ _ => 200 }

/-- A shape backend that ignores the angle and returns the X field; the
claims checked against the pipeline never depend on the shape output. -/
def trivial_shape_backend : ShapeBackend :=
  ⟨fun X _ _ => X, fun X _ => X, fun X _ _ => X, fun X _ _ => X, fun X _ _ => X⟩

/-- A noise backend returning an empty image. -/
def trivial_noise_backend : NoiseBackend :=
  fun _ _ m => ⟨m, 0, 0, fun _ _ => [], fun _ _ => 0⟩

/-- A gradient setting whose descriptor has an unrecognized gradient form. -/
def unknown_form_setting (op : Int) : GradientSetting :=
  ⟨0, 100, false, op, GradientKind.linear,
   ⟨GradientForm.other "Unexpected", [], none⟩⟩

/-- A well-formed two-stop gradient setting. -/
def two_stop_setting (op : Int) : GradientSetting :=
  ⟨0, 100, false, op, GradientKind.linear,
   ⟨GradientForm.customStops, [⟨0, [0, 0, 0]⟩, ⟨4096, [255, 255, 255]⟩], none⟩⟩

/-! ## Claim C1 -/

/-- Claim C1 (code bug): `opacity == 100` leaves the buffer unchanged, and
with an existing alpha channel each alpha value is scaled by `p/100`
(`int(200 * 50 / 100.) = 100`); but on an alpha-less RGB buffer at
`opacity = 50` the code executes `putalpha(int(50 * 255))`, a uniform alpha
of 255 after PIL byte clamping, not the `round(50 * 2.55) = 128` the claim
states. -/
theorem C1_opacity_putalpha_code_bug :
    apply_opacity 100 rgb_test_image = rgb_test_image ∧
    (apply_opacity 50 rgb_test_image).mode = "RGBA" ∧
    (apply_opacity 50 rgb_test_image).alphaPix 0 0 = 255 ∧
    (apply_opacity 50 la_test_image).alphaPix 0 0 = 100 ∧
    (255 : Nat) ≠ 128 := by
  refine ⟨rfl, by decide, by decide, ?_, by decide⟩
  have h100 : ((200 : ℚ) * 50 / 100) = 100 := by norm_num
  simp only [apply_opacity, la_test_image, put_alpha_band, ends_with_A, py_trunc, clip8]
  norm_num
  decide

/-! ## Claim C4 -/

/-- Claim C4 (code bug): with an unknown gradient form, `_apply_color_map`
returns `None`; at the default opacity 100 `draw_gradient_fill` then indeed
returns no raster, but for any other opacity the unconditional
`_apply_opacity(gradient_image, setting)` dereferences `None.mode` and the
fill raises `AttributeError` instead of returning `None`. -/
theorem C4_unknown_form_attribute_error :
    draw_gradient_fill ⟨true, true⟩ trivial_shape_backend trivial_noise_backend
      "RGB" (4, 4) (unknown_form_setting 50) =
      Except.error "AttributeError: NoneType object has no attribute mode" ∧
    draw_gradient_fill ⟨true, true⟩ trivial_shape_backend trivial_noise_backend
      "RGB" (4, 4) (unknown_form_setting 100) = Except.ok none :=
  ⟨rfl, rfl⟩

/-! ## Claim C5 -/

/-- Claim C5 (code bug): a missing numpy backend is caught (`return None`),
but the scipy import inside `_apply_color_map` is unguarded: with numpy
available and scipy missing, every gradient fill raises `ImportError`
instead of returning no raster. -/
theorem C5_missing_backend_behavior :
    draw_gradient_fill ⟨true, false⟩ trivial_shape_backend trivial_noise_backend
      "RGB" (4, 4) (two_stop_setting 100) =
      Except.error "ImportError: No module named scipy" ∧
    draw_gradient_fill ⟨false, false⟩ trivial_shape_backend trivial_noise_backend
      "RGB" (4, 4) (two_stop_setting 100) = Except.ok none ∧
    draw_gradient_fill ⟨false, true⟩ trivial_shape_backend trivial_noise_backend
      "RGB" (4, 4) (two_stop_setting 100) = Except.ok none :=
  ⟨rfl, rfl, rfl⟩

/-! ## Claim C3, counterexample part -/

/-- Claim C3 counterexample: for the alpha-carrying grayscale mode "LA" (and
likewise "CMYKA") the dictionary lookup falls through to the default and the
stop scalar is 1, not the 2.55 the claim asserts for grayscale/CMYK modes
with alpha. -/
theorem C3_alpha_mode_scalar_counterexample :
    color_stop_scalar "LA" = 1 ∧ color_stop_scalar "CMYKA" = 1 ∧
    ((2.55 : ℚ) ≠ 1) := by
  refine ⟨by decide, by decide, by norm_num⟩

/-! ## The stop-collection loop as adjacent collapse -/

theorem push_last_ne_nil {γ : Type} (L : List (ℚ × γ)) (p : ℚ × γ) :
    push_last L p ≠ [] := by
  unfold push_last
  split <;> simp

theorem push_last_cons {γ : Type} (a : ℚ × γ) (M : List (ℚ × γ)) (p : ℚ × γ)
    (hM : M ≠ []) : push_last (a :: M) p = a :: push_last M p := by
  obtain ⟨b, M', rfl⟩ : ∃ b M', M = b :: M' := by
    cases M with
    | nil => exact absurd rfl hM
    | cons b M' => exact ⟨b, M', rfl⟩
  unfold push_last
  rw [List.getLast?_cons_cons]
  split <;> rfl

theorem push_last_head_fst {γ : Type} (m : ℚ × γ) (M : List (ℚ × γ)) (p q : ℚ × γ)
    (hq : (push_last (m :: M) p).head? = some q) : q.1 = m.1 := by
  cases M with
  | nil =>
    unfold push_last at hq
    by_cases hc : m.1 = p.1
    · rw [if_pos (by simp [hc])] at hq
      simp at hq
      rw [← hq, ← hc]
    · rw [if_neg (by simp [hc])] at hq
      simp at hq
      rw [← hq]
  | cons b M' =>
    rw [push_last_cons m (b :: M') p (by simp)] at hq
    simp at hq
    rw [← hq]

theorem collapse_adj_of_chain_ne {γ : Type} (L : List (ℚ × γ))
    (hL : List.Chain' (fun a b => a.1 ≠ b.1) L) : collapse_adj L = L := by
  induction L with
  | nil => rfl
  | cons p t ih =>
    cases t with
    | nil => rfl
    | cons q r =>
      rw [List.chain'_cons] at hL
      rw [collapse_adj, if_neg hL.1, ih hL.2]

theorem collapse_adj_cons_ne {γ : Type} (a : ℚ × γ) (M : List (ℚ × γ))
    (hM : M ≠ []) (hhead : ∀ q, M.head? = some q → a.1 ≠ q.1) :
    collapse_adj (a :: M) = a :: collapse_adj M := by
  cases M with
  | nil => exact absurd rfl hM
  | cons q R => rw [collapse_adj, if_neg (hhead q rfl)]

theorem chain_ne_push_last {γ : Type} (M : List (ℚ × γ)) (p : ℚ × γ)
    (hM : List.Chain' (fun a b => a.1 ≠ b.1) M) :
    List.Chain' (fun a b => a.1 ≠ b.1) (push_last M p) := by
  induction M with
  | nil => unfold push_last; simp
  | cons m M' ih =>
    cases M' with
    | nil =>
      unfold push_last
      by_cases hc : m.1 = p.1
      · rw [if_pos (by simp [hc])]
        simp
      · rw [if_neg (by simp [hc])]
        simp [hc]
    | cons b M'' =>
      rw [push_last_cons m (b :: M'') p (by simp)]
      have hM' := List.chain'_cons.mp hM
      apply List.chain'_cons'.mpr
      constructor
      · intro y hy
        rw [Option.mem_def] at hy
        rw [push_last_head_fst b M'' p y hy]
        exact hM'.1
      · exact ih hM'.2

theorem collapse_adj_append_push {γ : Type} (L : List (ℚ × γ)) (p : ℚ × γ)
    (R : List (ℚ × γ)) (hL : List.Chain' (fun a b => a.1 ≠ b.1) L) :
    collapse_adj (L ++ p :: R) = collapse_adj (push_last L p ++ R) := by
  induction L with
  | nil => unfold push_last; simp
  | cons m L' ih =>
    cases L' with
    | nil =>
      unfold push_last
      by_cases hc : m.1 = p.1
      · rw [if_pos (by simp [hc])]
        show collapse_adj (m :: p :: R) = collapse_adj (p :: R)
        rw [collapse_adj, if_pos hc]
      · rw [if_neg (by simp [hc])]
        rfl
    | cons b L'' =>
      rw [List.chain'_cons] at hL
      have hne : (b :: L'') ≠ [] := by simp
      have lhs : collapse_adj ((m :: b :: L'') ++ p :: R) =
          m :: collapse_adj ((b :: L'') ++ p :: R) := by
        show collapse_adj (m :: b :: (L'' ++ p :: R)) = _
        rw [collapse_adj, if_neg hL.1]
        rfl
      have h2 : collapse_adj (m :: (push_last (b :: L'') p ++ R)) =
          m :: collapse_adj (push_last (b :: L'') p ++ R) := by
        apply collapse_adj_cons_ne
        · simp [push_last_ne_nil]
        · intro q hq
          rw [List.head?_append_of_ne_nil _ (push_last_ne_nil (b :: L'') p)] at hq
          rw [push_last_head_fst b L'' p q hq]
          exact hL.1
      rw [lhs, ih hL.2, push_last_cons m (b :: L'') p hne]
      exact h2.symm

theorem foldl_push_last {γ : Type} (R : List (ℚ × γ)) :
    ∀ L, List.Chain' (fun a b => a.1 ≠ b.1) L →
      List.foldl push_last L R = collapse_adj (L ++ R) := by
  induction R with
  | nil =>
    intro L hL
    rw [List.foldl_nil, List.append_nil, collapse_adj_of_chain_ne L hL]
  | cons p R' ih =>
    intro L hL
    rw [List.foldl_cons, ih (push_last L p) (chain_ne_push_last L p hL),
      ← collapse_adj_append_push L p R' hL]

theorem build_stops_eq_collapse (scalar : ℚ) (stops : List GradStop) :
    build_stops scalar stops = collapse_adj (stops.map (stop_point scalar)) := by
  unfold build_stops
  rw [← List.foldl_map (stop_point scalar) push_last stops []]
  exact foldl_push_last (stops.map (stop_point scalar)) [] (by simp)

/-! ## keep_last facts -/

theorem keep_last_cons {γ : Type} (a : ℚ × γ) (l : List (ℚ × γ)) :
    keep_last (a :: l) =
      if (keep_last l).any (fun q => decide (q.1 = a.1)) then keep_last l
      else a :: keep_last l := rfl

theorem keep_last_subset {γ : Type} (l : List (ℚ × γ)) :
    ∀ x ∈ keep_last l, x ∈ l := by
  induction l with
  | nil => intro x hx; exact absurd hx (by simp [keep_last])
  | cons a l ih =>
    intro x hx
    rw [keep_last_cons] at hx
    by_cases hc : (keep_last l).any (fun q => decide (q.1 = a.1)) = true
    · rw [if_pos hc] at hx
      exact List.mem_cons_of_mem a (ih x hx)
    · rw [if_neg hc] at hx
      rcases List.mem_cons.mp hx with h | h
      · exact h ▸ List.mem_cons_self a l
      · exact List.mem_cons_of_mem a (ih x h)

theorem keep_last_exists_of_exists {γ : Type} (l : List (ℚ × γ)) (c : ℚ)
    (h : ∃ e ∈ l, e.1 = c) : ∃ e ∈ keep_last l, e.1 = c := by
  induction l with
  | nil => simp at h
  | cons a l ih =>
    rw [keep_last_cons]
    obtain ⟨e, he, hec⟩ := h
    by_cases hc : (keep_last l).any (fun q => decide (q.1 = a.1)) = true
    · rw [if_pos hc]
      rcases List.mem_cons.mp he with rfl | hel
      · obtain ⟨q, hq, hq1⟩ := List.any_eq_true.mp hc
        exact ⟨q, hq, by rw [of_decide_eq_true hq1, hec]⟩
      · exact ih ⟨e, hel, hec⟩
    · rw [if_neg hc]
      rcases List.mem_cons.mp he with rfl | hel
      · exact ⟨e, List.mem_cons_self e _, hec⟩
      · obtain ⟨q, hq, hq1⟩ := ih ⟨e, hel, hec⟩
        exact ⟨q, List.mem_cons_of_mem a hq, hq1⟩

theorem keep_last_pairwise_ne {γ : Type} (l : List (ℚ × γ)) :
    List.Pairwise (fun a b => a.1 ≠ b.1) (keep_last l) := by
  induction l with
  | nil => simp [keep_last]
  | cons a l ih =>
    rw [keep_last_cons]
    by_cases hc : (keep_last l).any (fun q => decide (q.1 = a.1)) = true
    · rw [if_pos hc]; exact ih
    · rw [if_neg hc]
      rw [List.pairwise_cons]
      refine ⟨?_, ih⟩
      intro q hq hqa
      have hfalse : (keep_last l).any (fun q => decide (q.1 = a.1)) = false :=
        Bool.eq_false_iff.mpr hc
      have := List.any_eq_false.mp hfalse q hq
      simp only [decide_eq_true_eq] at this
      exact this hqa.symm

theorem collapse_eq_keep_last_of_sorted {γ : Type} (l : List (ℚ × γ))
    (hs : List.Pairwise (fun a b => a.1 ≤ b.1) l) :
    collapse_adj l = keep_last l := by
  induction l with
  | nil => rfl
  | cons p t ih =>
    cases t with
    | nil => rfl
    | cons q r =>
      rw [List.pairwise_cons] at hs
      by_cases hpq : p.1 = q.1
      · have htrue : ((keep_last (q :: r)).any (fun e => decide (e.1 = p.1))) = true := by
          obtain ⟨e, he, he1⟩ := keep_last_exists_of_exists (q :: r) p.1
            ⟨q, List.mem_cons_self q r, hpq.symm⟩
          exact List.any_eq_true.mpr ⟨e, he, by simp [he1]⟩
        have hrhs : keep_last (p :: q :: r) = keep_last (q :: r) := by
          rw [keep_last_cons, if_pos htrue]
        rw [collapse_adj, if_pos hpq, ih hs.2, hrhs]
      · have hfalse : ((keep_last (q :: r)).any (fun e => decide (e.1 = p.1))) = false := by
          apply List.any_eq_false.mpr
          intro e he
          have hmem := keep_last_subset (q :: r) e he
          simp only [decide_eq_true_eq]
          intro hep
          rcases List.mem_cons.mp hmem with rfl | her
          · exact hpq hep.symm
          · have h1 : p.1 ≤ q.1 := hs.1 q (List.mem_cons_self q r)
            have h2 : q.1 ≤ e.1 := (List.pairwise_cons.mp hs.2).1 e her
            exact hpq (le_antisymm h1 (hep ▸ h2))
        have hrhs : keep_last (p :: q :: r) = p :: keep_last (q :: r) := by
          rw [keep_last_cons, if_neg (by rw [hfalse]; simp)]
        rw [collapse_adj, if_neg hpq, ih hs.2, hrhs]

/-! ## The stop projection respects location equality and order -/

theorem stop_point_fst_eq_iff (scalar : ℚ) (s t : GradStop) :
    (stop_point scalar s).1 = (stop_point scalar t).1 ↔ s.location = t.location := by
  simp only [stop_point]
  constructor
  · intro h
    field_simp at h
    exact_mod_cast h
  · intro h; rw [h]

theorem map_keep_last_stops (scalar : ℚ) (l : List GradStop) :
    (keep_last_stops l).map (stop_point scalar) =
      keep_last (l.map (stop_point scalar)) := by
  induction l with
  | nil => rfl
  | cons s l ih =>
    show ((if (keep_last_stops l).any
        (fun t => decide (t.location = s.location)) then keep_last_stops l
        else s :: keep_last_stops l).map (stop_point scalar)) = _
    rw [List.map_cons, keep_last_cons, ← ih]
    have hany : ∀ L : List GradStop, (L.map (stop_point scalar)).any
        (fun q => decide (q.1 = (stop_point scalar s).1)) =
        L.any (fun t => decide (t.location = s.location)) := by
      intro L
      induction L with
      | nil => rfl
      | cons a L ihL =>
        simp only [List.map_cons, List.any_cons, ihL]
        congr 1
        rw [decide_eq_decide]
        exact stop_point_fst_eq_iff scalar a s
    rw [hany]
    split <;> simp

theorem pairwise_le_map_stop_point (scalar : ℚ) (l : List GradStop)
    (hs : List.Pairwise (fun a b => a.location ≤ b.location) l) :
    List.Pairwise (fun a b => a.1 ≤ b.1) (l.map (stop_point scalar)) := by
  rw [List.pairwise_map]
  apply hs.imp
  intro a b hab
  simp only [stop_point]
  apply (div_le_div_iff_of_pos_right (by norm_num : (0 : ℚ) < 4096)).mpr
  exact_mod_cast hab

theorem collapse_adj_subset {γ : Type} (l : List (ℚ × γ)) :
    ∀ x ∈ collapse_adj l, x ∈ l := by
  induction l with
  | nil => intro x hx; exact absurd hx (by simp [collapse_adj])
  | cons p t ih =>
    cases t with
    | nil => intro x hx; exact hx
    | cons q r =>
      intro x hx
      rw [collapse_adj] at hx
      by_cases hpq : p.1 = q.1
      · rw [if_pos hpq] at hx
        exact List.mem_cons_of_mem p (ih x hx)
      · rw [if_neg hpq] at hx
        rcases List.mem_cons.mp hx with rfl | h
        · exact List.mem_cons_self x _
        · exact List.mem_cons_of_mem p (ih x h)

/-! ## Claim C3, amended part -/

/-- Claim C3 (amended): the unit scalar applied to stop channel values
before interpolation is 2.55 exactly for the modes "L" and "CMYK" and 1.0
for every other mode string - including the alpha-carrying "RGBA", "LA" and
"CMYKA", which all fall through to the dictionary default 1.0.  The second
conjunct locates the scalar in the collection loop: the collected stop list
is the adjacent-duplicate collapse of the scalar-scaled stop points. -/
theorem C3_stop_scalar_amended (mode : String) (stops : List GradStop) :
    color_stop_scalar mode = (if mode = "L" ∨ mode = "CMYK" then 51 / 20 else 1) ∧
    build_stops (color_stop_scalar mode) stops =
      collapse_adj (stops.map (stop_point (color_stop_scalar mode))) := by
  constructor
  · by_cases h1 : mode = "RGB"
    · subst h1
      rw [if_neg (by decide)]
      decide
    · by_cases h2 : mode = "L"
      · subst h2
        rw [if_pos (by decide)]
        unfold color_stop_scalar
        rw [if_neg (by decide), if_pos rfl]
        norm_num
      · by_cases h3 : mode = "CMYK"
        · subst h3
          rw [if_pos (by decide)]
          unfold color_stop_scalar
          rw [if_neg (by decide), if_neg (by decide), if_pos rfl]
          norm_num
        · simp [color_stop_scalar, h1, h2, h3]
  · exact build_stops_eq_collapse _ stops

/-! ## Claim C7 -/

theorem build_stops_keep_last (scalar : ℚ) (stops : List GradStop)
    (hs : List.Pairwise (fun a b => a.location ≤ b.location) stops) :
    build_stops scalar stops = build_stops scalar (keep_last_stops stops) := by
  rw [build_stops_eq_collapse, build_stops_eq_collapse,
    collapse_eq_keep_last_of_sorted _ (pairwise_le_map_stop_point scalar stops hs),
    map_keep_last_stops scalar stops,
    collapse_adj_of_chain_ne _ ((keep_last_pairwise_ne _).chain')]

/-- Claim C7: for every sorted stop list, the collection loop of
`_apply_color_map` collapses stops sharing a normalized location to the
last-seen one, so the collected list - and hence the interpolant built from
it - is identical to that of the list with only the last stop kept at each
location. -/
theorem C7_duplicate_stop_collapse (mode : String) (stops : List GradStop)
    (hs : List.Pairwise (fun a b => a.location ≤ b.location) stops) :
    build_stops (color_stop_scalar mode) stops =
      build_stops (color_stop_scalar mode) (keep_last_stops stops) ∧
    ∀ z, interp1d_vec (expand_single (build_stops (color_stop_scalar mode) stops)) z =
      interp1d_vec (expand_single (build_stops (color_stop_scalar mode)
        (keep_last_stops stops))) z := by
  have hmain := build_stops_keep_last (color_stop_scalar mode) stops hs
  exact ⟨hmain, fun z => by rw [hmain]⟩

/-- Witness for C7 at the spec's example: locations 0, 0.5, 0.5, 1 (raw
0, 2048, 2048, 4096) with a duplicate at 0.5. -/
theorem C7_duplicate_stop_collapse_witness :
    List.Pairwise (fun a b => a.location ≤ b.location)
      [(⟨0, [0]⟩ : GradStop), ⟨2048, [10]⟩, ⟨2048, [20]⟩, ⟨4096, [255]⟩] ∧
    build_stops (color_stop_scalar "RGB")
      [(⟨0, [0]⟩ : GradStop), ⟨2048, [10]⟩, ⟨2048, [20]⟩, ⟨4096, [255]⟩] =
    build_stops (color_stop_scalar "RGB")
      (keep_last_stops [(⟨0, [0]⟩ : GradStop), ⟨2048, [10]⟩, ⟨2048, [20]⟩, ⟨4096, [255]⟩]) :=
  ⟨by decide, (C7_duplicate_stop_collapse "RGB" _ (by decide)).1⟩

/-! ## Claim C2 -/

theorem subpath_bool_of_pix (backend : RasterBackend) (w h x y : Nat)
    (sp : SubPath) (pb : Bool)
    (hp : (draw_subpath backend sp w h).pix x y = bool_byte pb) :
    subpath_bool backend w h x y sp = (sp.operation, pb) := by
  unfold subpath_bool
  rw [hp]
  cases pb <;> rfl

theorem mask_step_pix (backend : RasterBackend) (w h x y : Nat)
    (img : GrayImage) (first : Bool) (sp : SubPath) (b pb : Bool)
    (hb : img.pix x y = bool_byte b)
    (hp : (draw_subpath backend sp w h).pix x y = bool_byte pb) :
    (mask_step backend w h (img, first) sp).1.pix x y =
      bool_byte (bool_mask_step (b, first) (sp.operation, pb)).1 := by
  unfold mask_step bool_mask_step
  dsimp only
  by_cases h0 : sp.operation = 0
  · rw [if_pos h0, if_pos h0]
    dsimp only [chops_difference]
    rw [hb, hp]
    cases b <;> cases pb <;> decide
  · by_cases h1 : sp.operation = 1
    · rw [if_neg h0, if_neg h0, if_pos h1, if_pos h1]
      dsimp only [chops_lighter]
      rw [hb, hp]
      cases b <;> cases pb <;> decide
    · by_cases h2 : sp.operation = 2
      · rw [if_neg h0, if_neg h0, if_neg h1, if_neg h1, if_pos h2, if_pos h2]
        cases first
        · rw [if_neg (by decide), if_neg (by decide)]
          dsimp only [chops_subtract]
          rw [hb, hp]
          cases b <;> cases pb <;> decide
        · rw [if_pos rfl, if_pos rfl]
          dsimp only [chops_subtract, chops_invert]
          rw [hb, hp]
          cases b <;> cases pb <;> decide
      · by_cases h3 : sp.operation = 3
        · rw [if_neg h0, if_neg h0, if_neg h1, if_neg h1, if_neg h2, if_neg h2,
            if_pos h3, if_pos h3]
          cases first
          · rw [if_neg (by decide), if_neg (by decide)]
            dsimp only [chops_darker]
            rw [hb, hp]
            cases b <;> cases pb <;> decide
          · rw [if_pos rfl, if_pos rfl]
            dsimp only [chops_darker, chops_invert]
            rw [hb, hp]
            cases b <;> cases pb <;> decide
        · rw [if_neg h0, if_neg h0, if_neg h1, if_neg h1, if_neg h2, if_neg h2,
            if_neg h3, if_neg h3]
          rw [hb]

theorem mask_fold_bool (backend : RasterBackend) (w h x y : Nat)
    (paths : List SubPath) :
    ∀ (img : GrayImage) (first b : Bool),
      img.pix x y = bool_byte b →
      (∀ sp ∈ paths, (draw_subpath backend sp w h).pix x y = 0 ∨
        (draw_subpath backend sp w h).pix x y = 255) →
      (paths.foldl (mask_step backend w h) (img, first)).1.pix x y =
        bool_byte ((paths.map (subpath_bool backend w h x y)).foldl
          bool_mask_step (b, first)).1 := by
  induction paths with
  | nil =>
    intro img first b hb _
    simpa using hb
  | cons sp rest ih =>
    intro img first b hb hpl
    have hsp := hpl sp (List.mem_cons_self sp rest)
    have hpb : ∃ pb : Bool,
        (draw_subpath backend sp w h).pix x y = bool_byte pb := by
      rcases hsp with h | h
      · exact ⟨false, h⟩
      · exact ⟨true, h⟩
    obtain ⟨pb, hp⟩ := hpb
    simp only [List.foldl_cons, List.map_cons]
    rw [subpath_bool_of_pix backend w h x y sp pb hp]
    have hstep := mask_step_pix backend w h x y img first sp b pb hb hp
    have hsnd : (mask_step backend w h (img, first) sp).2 = false := rfl
    have hpair : mask_step backend w h (img, first) sp =
        ((mask_step backend w h (img, first) sp).1, false) := by
      rw [← hsnd]
    have hpair' : bool_mask_step (b, first) (sp.operation, pb) =
        ((bool_mask_step (b, first) (sp.operation, pb)).1, false) := by
      rfl
    rw [hpair, hpair']
    exact ih _ false _ hstep (fun sp' h' => hpl sp' (List.mem_cons_of_mem sp h'))

/-- Claim C2: at every pixel where each rasterized sub-path plane is fully
covering (255) or empty (0), and the initial fill rule is the bit 0 or 1,
the accumulator of `draw_vector_mask` computes exactly the boolean set
algebra of the operator sequence: Exclude is symmetric difference, Union is
disjunction, SubtractInverted and IntersectInverted complement the
accumulator exactly when handling the very first sub-path of the mask and
then subtract or intersect, and the first flag is cleared after every
sub-path regardless of its operator. -/
theorem C2_vector_mask_boolean_algebra (backend : RasterBackend)
    (layer : VectorMaskLayer) (x y : Nat)
    (hfr : layer.initialFillRule ≤ 1)
    (hpl : ∀ sp ∈ layer.paths,
      (draw_subpath backend sp layer.psdWidth layer.psdHeight).pix x y = 0 ∨
      (draw_subpath backend sp layer.psdWidth layer.psdHeight).pix x y = 255) :
    (vector_mask_accum backend layer).pix x y =
      bool_byte ((layer.paths.map
        (subpath_bool backend layer.psdWidth layer.psdHeight x y)).foldl
          bool_mask_step (decide (layer.initialFillRule = 1), true)).1 := by
  unfold vector_mask_accum
  apply mask_fold_bool backend layer.psdWidth layer.psdHeight x y layer.paths
    _ true (decide (layer.initialFillRule = 1)) ?_ hpl
  rcases Nat.le_one_iff_eq_zero_or_eq_one.mp hfr with h | h <;> rw [h] <;> rfl

/-- Witness for C2: empty initial fill, a covering Union sub-path followed
by a covering SubtractInverted sub-path; the accumulator ends empty, as the
boolean algebra demands. -/
theorem C2_vector_mask_boolean_algebra_witness :
    (vector_mask_accum full_backend demo_layer).pix 0 0 =
      bool_byte ((demo_layer.paths.map (subpath_bool full_backend 2 2 0 0)).foldl
        bool_mask_step (decide (demo_layer.initialFillRule = 1), true)).1 :=
  C2_vector_mask_boolean_algebra full_backend demo_layer 0 0 (by decide)
    (fun sp _ => Or.inr rfl)

/-! ## Claim C6 -/

theorem num_toks_append (a b : List SymTok) :
    num_toks (a ++ b) = num_toks a ++ num_toks b := by
  induction a with
  | nil => rfl
  | cons t a ih =>
    cases t with
    | cmd s => simpa [num_toks] using ih
    | num q => simp [num_toks, ih]

theorem num_toks_gen_pairs (P : List (Knot × Knot)) (w h : ℚ) :
    num_toks (P.flatMap (fun pq =>
      [SymTok.num (pq.1.leaving.2 * w), SymTok.num (pq.1.leaving.1 * h),
       SymTok.num (pq.2.preceding.2 * w), SymTok.num (pq.2.preceding.1 * h),
       SymTok.num (pq.2.anchor.2 * w), SymTok.num (pq.2.anchor.1 * h)])) =
    (P.flatMap (fun pq => [pq.1.leaving, pq.2.preceding, pq.2.anchor])).flatMap
      (fun pt => [pt.2 * w, pt.1 * h]) := by
  induction P with
  | nil => rfl
  | cons pq P ih =>
    rw [List.flatMap_cons, List.flatMap_cons, num_toks_append,
      List.flatMap_append, ih]
    rfl

/-- Claim C6: the symbol generator scales every contour point's second
component by the width (the horizontal coordinate) and its first component
by the height (the vertical coordinate), the closed-path contour wraps from
the last anchor back to the first (via `sym_points` / `subpath_pairs`), and
an empty sub-path generates an empty symbol so its rasterized mask is the
untouched all-zero image. -/
theorem C6_symbol_axis_convention (sp : SubPath) (w h : ℚ)
    (backend : RasterBackend) (hb : ∀ f, backend [] f = f) :
    num_toks (generate_symbol sp w h) =
      (sym_points sp).flatMap (fun pt => [pt.2 * w, pt.1 * h]) ∧
    (sp.knots = [] → generate_symbol sp w h = []) ∧
    (∀ w' h' : Nat, sp.knots = [] →
      draw_subpath backend sp w' h' = image_new "L" w' h' 0) := by
  obtain ⟨knots, closed, op⟩ := sp
  cases knots with
  | nil =>
    refine ⟨rfl, fun _ => rfl, fun w' h' _ => ?_⟩
    show GrayImage.mk "L" w' h'
        (backend (generate_symbol ⟨[], closed, op⟩ (w' : ℚ) (h' : ℚ)) (fun _ _ => 0)) =
      image_new "L" w' h' 0
    rw [show generate_symbol ⟨[], closed, op⟩ (w' : ℚ) (h' : ℚ) = [] from rfl, hb]
    rfl
  | cons k0 rest =>
    refine ⟨?_, fun hcon => absurd hcon (List.cons_ne_nil k0 rest),
      fun _ _ hcon => absurd hcon (List.cons_ne_nil k0 rest)⟩
    show num_toks
        ([SymTok.cmd "M", SymTok.num (k0.anchor.2 * w),
          SymTok.num (k0.anchor.1 * h), SymTok.cmd "C"] ++
          (subpath_pairs ⟨k0 :: rest, closed, op⟩).flatMap (fun pq =>
            [SymTok.num (pq.1.leaving.2 * w), SymTok.num (pq.1.leaving.1 * h),
             SymTok.num (pq.2.preceding.2 * w), SymTok.num (pq.2.preceding.1 * h),
             SymTok.num (pq.2.anchor.2 * w), SymTok.num (pq.2.anchor.1 * h)]) ++
          (if closed then [SymTok.cmd "Z"] else [])) =
      (k0.anchor :: (subpath_pairs ⟨k0 :: rest, closed, op⟩).flatMap
        (fun pq => [pq.1.leaving, pq.2.preceding, pq.2.anchor])).flatMap
          (fun pt => [pt.2 * w, pt.1 * h])
    rw [num_toks_append, num_toks_append]
    have htail : num_toks (if closed = true then [SymTok.cmd "Z"] else []) = [] := by
      cases closed <;> rfl
    rw [htail, List.append_nil, num_toks_gen_pairs, List.flatMap_cons]
    rfl

/-- Witness for C6: a concrete closed two-knot sub-path, and a knotless
sub-path whose rasterized mask equals the fresh all-zero image. -/
theorem C6_symbol_axis_convention_witness :
    num_toks (generate_symbol demo_subpath 4 3) =
      (sym_points demo_subpath).flatMap (fun pt => [pt.2 * 4, pt.1 * 3]) ∧
    draw_subpath id_backend ⟨[], false, 0⟩ 2 2 = image_new "L" 2 2 0 :=
  ⟨(C6_symbol_axis_convention demo_subpath 4 3 id_backend (fun _ => rfl)).1,
   (C6_symbol_axis_convention ⟨[], false, 0⟩ 4 3 id_backend (fun _ => rfl)).2.2 2 2 rfl⟩

/-! ## Claim C9 -/

theorem mask_step_meta (backend : RasterBackend) (w h : Nat)
    (st : GrayImage × Bool) (sp : SubPath) :
    (mask_step backend w h st sp).1.mode = st.1.mode ∧
    (mask_step backend w h st sp).1.width = st.1.width ∧
    (mask_step backend w h st sp).1.height = st.1.height := by
  unfold mask_step
  dsimp only
  refine ⟨?_, ?_, ?_⟩ <;> (repeat' split) <;> rfl

theorem mask_fold_meta (backend : RasterBackend) (w h : Nat) (paths : List SubPath) :
    ∀ (img : GrayImage) (first : Bool),
      (paths.foldl (mask_step backend w h) (img, first)).1.mode = img.mode ∧
      (paths.foldl (mask_step backend w h) (img, first)).1.width = img.width ∧
      (paths.foldl (mask_step backend w h) (img, first)).1.height = img.height := by
  induction paths with
  | nil => intro img first; exact ⟨rfl, rfl, rfl⟩
  | cons sp rest ih =>
    intro img first
    rw [List.foldl_cons]
    have hpair : mask_step backend w h (img, first) sp =
        ((mask_step backend w h (img, first) sp).1, false) := rfl
    rw [hpair]
    obtain ⟨hm, hw, hh⟩ := ih (mask_step backend w h (img, first) sp).1 false
    obtain ⟨hm2, hw2, hh2⟩ := mask_step_meta backend w h (img, first) sp
    exact ⟨hm.trans hm2, hw.trans hw2, hh.trans hh2⟩

/-- Claim C9 counterexample: for a pathless vector mask with fill rule 1
whose layer bounding box extends one pixel beyond the canvas, the crop
zero-fills the out-of-canvas pixel - the output pixel (1, 0) is 0, not the
255 * initial_fill_rule = 255 that the claim asserts for every pixel. -/
theorem C9_out_of_canvas_counterexample :
    (draw_vector_mask full_backend out_of_canvas_layer).width = 2 ∧
    (draw_vector_mask full_backend out_of_canvas_layer).pix 1 0 = 0 ∧
    255 * out_of_canvas_layer.initialFillRule = 255 := by
  refine ⟨rfl, ?_, rfl⟩
  decide

/-- Claim C9 (amended): `draw_vector_mask` always returns a single-band
mode-"L" buffer whose dimensions are those of the layer bounding box,
whatever the number or operator codes of the sub-paths; with zero sub-paths
every pixel whose source coordinate lies on the canvas equals
`255 * initial_fill_rule`, while pixels outside the canvas are zero-filled
by the crop. -/
theorem C9_mask_mode_size_amended (backend : RasterBackend) (layer : VectorMaskLayer)
    (hlr : layer.bboxLeft ≤ layer.bboxRight)
    (htb : layer.bboxTop ≤ layer.bboxBottom) :
    (draw_vector_mask backend layer).mode = "L" ∧
    ((draw_vector_mask backend layer).width : Int) =
      layer.bboxRight - layer.bboxLeft ∧
    ((draw_vector_mask backend layer).height : Int) =
      layer.bboxBottom - layer.bboxTop ∧
    (layer.paths = [] → ∀ x y : Nat,
      (draw_vector_mask backend layer).pix x y =
        if 0 ≤ (x : Int) + layer.bboxLeft ∧
           (x : Int) + layer.bboxLeft < (layer.psdWidth : Int) ∧
           0 ≤ (y : Int) + layer.bboxTop ∧
           (y : Int) + layer.bboxTop < (layer.psdHeight : Int)
        then 255 * layer.initialFillRule else 0) := by
  obtain ⟨hm, hw, hh⟩ := mask_fold_meta backend layer.psdWidth layer.psdHeight
    layer.paths
    (image_new "L" layer.psdWidth layer.psdHeight (255 * layer.initialFillRule)) true
  refine ⟨hm, ?_, ?_, ?_⟩
  · exact Int.toNat_of_nonneg (by omega)
  · exact Int.toNat_of_nonneg (by omega)
  · intro hp x y
    have hacc : vector_mask_accum backend layer =
        image_new "L" layer.psdWidth layer.psdHeight
          (255 * layer.initialFillRule) := by
      unfold vector_mask_accum
      rw [hp]
      rfl
    show (crop_image (vector_mask_accum backend layer) layer.bboxLeft
      layer.bboxTop layer.bboxRight layer.bboxBottom).pix x y = _
    rw [hacc]
    rfl

/-- Witness for C9 (amended) on a pathless layer whose box is the canvas. -/
theorem C9_mask_mode_size_witness :
    (draw_vector_mask full_backend in_canvas_layer).mode = "L" ∧
    ((draw_vector_mask full_backend in_canvas_layer).width : Int) = 2 ∧
    (draw_vector_mask full_backend in_canvas_layer).pix 0 0 = 255 := by
  have h := C9_mask_mode_size_amended full_backend in_canvas_layer
    (by decide) (by decide)
  refine ⟨h.1, ?_, ?_⟩
  · rw [h.2.1]; decide
  · have hp := h.2.2.2 rfl 0 0
    rw [hp, if_pos (by decide)]
    decide

/-! ## Claim C8 -/

theorem np_linspace_length (lo hi : ℚ) (n : Nat) :
    (np_linspace lo hi n).length = n := by
  unfold np_linspace
  by_cases h0 : n = 0
  · rw [if_pos h0]; simp [h0]
  · rw [if_neg h0]
    by_cases h1 : n = 1
    · rw [if_pos h1]; simp [h1]
    · rw [if_neg h1]; simp

theorem getD_map_range (f : Nat → ℚ) (n j : Nat) (hj : j < n) :
    ((List.range n).map f).getD j 0 = f j := by
  rw [List.getD_eq_getElem?_getD, List.getElem?_map, List.getElem?_range hj]
  rfl

theorem np_linspace_getD (lo hi : ℚ) (n j : Nat) (hn : 1 ≤ n) (hj : j < n) :
    (np_linspace lo hi n).getD j 0 = lo + (hi - lo) * j / ((n : ℚ) - 1) := by
  unfold np_linspace
  rw [if_neg (by omega)]
  by_cases h1 : n = 1
  · subst h1
    rw [if_pos rfl]
    have hj0 : j = 0 := by omega
    subst hj0
    show lo = lo + (hi - lo) * ((0 : Nat) : ℚ) / ((1 : ℚ) - 1)
    simp
  · rw [if_neg h1]
    exact getD_map_range _ n j hj

theorem meshgrid_fst_getD (xs ys : List ℚ) (i : Nat) (hi : i < ys.length) :
    (np_meshgrid xs ys).1.getD i [] = xs := by
  unfold np_meshgrid
  dsimp only
  induction ys generalizing i with
  | nil => simp at hi
  | cons y ys ih =>
    cases i with
    | zero => rfl
    | succ i => exact ih i (by simpa using hi)

theorem meshgrid_snd_getD (xs ys : List ℚ) (i : Nat) (hi : i < ys.length) :
    (np_meshgrid xs ys).2.getD i [] = xs.map (fun _ => ys.getD i 0) := by
  unfold np_meshgrid
  dsimp only
  induction ys generalizing i with
  | nil => simp at hi
  | cons y ys ih =>
    cases i with
    | zero => rfl
    | succ i => exact ih i (by simpa using hi)

theorem getD_map_const (xs : List ℚ) (c : ℚ) (j : Nat) (hj : j < xs.length) :
    (xs.map (fun _ => c)).getD j 0 = c := by
  induction xs generalizing j with
  | nil => simp at hj
  | cons a xs ih =>
    cases j with
    | zero => rfl
    | succ j => exact ih j (by simpa using hj)

theorem qmod_nonneg_lt (a : ℚ) : 0 ≤ qmod a 90 ∧ qmod a 90 < 90 := by
  have hfr : qmod a 90 = 90 * Int.fract (a / 90) := by
    unfold qmod Int.fract
    rw [mul_sub, mul_comm (90 : ℚ) (a / 90),
      div_mul_cancel₀ a (by norm_num : (90 : ℚ) ≠ 0)]
  constructor
  · rw [hfr]
    exact mul_nonneg (by norm_num) (Int.fract_nonneg _)
  · rw [hfr]
    nlinarith [Int.fract_lt_one (a / 90)]

theorem effective_scale_pos (w h : Nat) (angle scale : ℚ)
    (hw : 1 ≤ w) (hs : 0 < scale) : 0 < effective_scale w h angle scale := by
  obtain ⟨h0, h1⟩ := qmod_nonneg_lt angle
  unfold effective_scale
  apply mul_pos hs
  have hw' : (1 : ℚ) ≤ (w : ℚ) := by exact_mod_cast hw
  have hterm1 : 0 < (90 - qmod angle 90) / 90 * (w : ℚ) := by
    apply mul_pos
    · exact div_pos (by linarith) (by norm_num)
    · linarith
  have hterm2 : 0 ≤ qmod angle 90 / 90 * (h : ℚ) := by
    apply mul_nonneg
    · exact div_nonneg h0 (by norm_num)
    · exact Nat.cast_nonneg h
  linarith

/-- Claim C8: for canvases of at least one pixel each way and a positive
scale factor, the effective scale is positive and equals
`scale * (((90 - angle mod 90)/90) * w + ((angle mod 90)/90) * h)`, and the
generated fields form the full h-by-w grid with X spanning
`[-w/es, w/es]` linearly over `w` samples along each row and Y spanning
`[-h/es, h/es]` linearly over `h` samples down each column. -/
theorem C8_coordinate_fields (w h : Nat) (angle scale : ℚ)
    (hw : 1 ≤ w) (hh : 1 ≤ h) (hs : 0 < scale) :
    0 < effective_scale w h angle scale ∧
    effective_scale w h angle scale =
      scale * ((90 - qmod angle 90) / 90 * (w : ℚ) +
        qmod angle 90 / 90 * (h : ℚ)) ∧
    (gradient_mesh w h angle scale).1.length = h ∧
    (gradient_mesh w h angle scale).2.length = h ∧
    (∀ row ∈ (gradient_mesh w h angle scale).1, row.length = w) ∧
    (∀ row ∈ (gradient_mesh w h angle scale).2, row.length = w) ∧
    (∀ i j : Nat, i < h → j < w →
      mat_entry (gradient_mesh w h angle scale).1 i j =
        -(w : ℚ) / effective_scale w h angle scale +
          2 * (w : ℚ) / effective_scale w h angle scale * j / ((w : ℚ) - 1) ∧
      mat_entry (gradient_mesh w h angle scale).2 i j =
        -(h : ℚ) / effective_scale w h angle scale +
          2 * (h : ℚ) / effective_scale w h angle scale * i / ((h : ℚ) - 1)) := by
  refine ⟨effective_scale_pos w h angle scale hw hs, rfl, ?_, ?_, ?_, ?_, ?_⟩
  · unfold gradient_mesh np_meshgrid
    simp [np_linspace_length]
  · unfold gradient_mesh np_meshgrid
    simp [np_linspace_length]
  · intro row hrow
    unfold gradient_mesh np_meshgrid at hrow
    dsimp only at hrow
    obtain ⟨y, _, rfl⟩ := List.mem_map.mp hrow
    exact np_linspace_length _ _ w
  · intro row hrow
    unfold gradient_mesh np_meshgrid at hrow
    dsimp only at hrow
    obtain ⟨y, _, rfl⟩ := List.mem_map.mp hrow
    rw [List.length_map]
    exact np_linspace_length _ _ w
  · intro i j hi hj
    constructor
    · unfold mat_entry gradient_mesh
      rw [meshgrid_fst_getD _ _ i (by rw [np_linspace_length]; exact hi),
        np_linspace_getD _ _ w j hw hj]
      ring
    · unfold mat_entry gradient_mesh
      rw [meshgrid_snd_getD _ _ i (by rw [np_linspace_length]; exact hi),
        getD_map_const _ _ j (by rw [np_linspace_length]; exact hj),
        np_linspace_getD _ _ h i hh hi]
      ring

/-- Witness for C8 on a 2-by-2 canvas at angle 0 and scale 1: the effective
scale is 2 and the X field runs from -1 to 1 along a row. -/
theorem C8_coordinate_fields_witness :
    0 < effective_scale 2 2 0 1 ∧
    mat_entry (gradient_mesh 2 2 0 1).1 0 0 = -1 ∧
    mat_entry (gradient_mesh 2 2 0 1).1 0 1 = 1 := by
  have h := C8_coordinate_fields 2 2 0 1 (by decide) (by decide) (by norm_num)
  have hes : effective_scale 2 2 0 1 = 2 := by
    unfold effective_scale qmod
    norm_num
  refine ⟨h.1, ?_, ?_⟩
  · have he := (h.2.2.2.2.2.2 0 0 (by decide) (by decide)).1
    rw [he, hes]
    norm_num
  · have he := (h.2.2.2.2.2.2 0 1 (by decide) (by decide)).1
    rw [he, hes]
    norm_num

/-! ## Claim C10 -/

theorem py_range_step_mem (stop step i : Nat) (hstep : 0 < step)
    (hi : i < (stop + step - 1) / step) : i * step ∈ py_range_step stop step := by
  unfold py_range_step
  rw [if_neg (by omega)]
  exact List.mem_map.mpr ⟨i, List.mem_range.mpr hi, rfl⟩

theorem div_lt_ceil_div (v total step : Nat) (hstep : 0 < step) (hv : v < total) :
    v / step < (total + step - 1) / step := by
  have h1 : total + step - 1 = (total - 1) + step := by omega
  have h2 : ((total - 1) + step) / step = (total - 1) / step + 1 :=
    Nat.add_div_right (total - 1) hstep
  have h3 : v / step ≤ (total - 1) / step := Nat.div_le_div_right (by omega)
  rw [h1, h2]
  omega

theorem paste_positions_cover (W H rw rh x y : Nat) (hrw : 1 ≤ rw) (hrh : 1 ≤ rh)
    (hx : x < W) (hy : y < H) :
    ∃ p ∈ paste_positions W H rw rh, rw ∣ p.1 ∧ rh ∣ p.2 ∧
      p.1 ≤ x ∧ x < p.1 + rw ∧ p.2 ≤ y ∧ y < p.2 + rh := by
  have hxmod := Nat.div_add_mod x rw
  have hymod := Nat.div_add_mod y rh
  have hxlt : x % rw < rw := Nat.mod_lt x (by omega)
  have hylt : y % rh < rh := Nat.mod_lt y (by omega)
  refine ⟨(rw * (x / rw), rh * (y / rh)), ?_, ⟨x / rw, rfl⟩, ⟨y / rh, rfl⟩,
    Nat.mul_div_le x rw, by omega, Nat.mul_div_le y rh, by omega⟩
  unfold paste_positions
  apply List.mem_flatMap.mpr
  refine ⟨rh * (y / rh), ?_, ?_⟩
  · rw [mul_comm]
    exact py_range_step_mem H rh (y / rh) (by omega)
      (div_lt_ceil_div y H rh (by omega) hy)
  · apply List.mem_map.mpr
    refine ⟨rw * (x / rw), ?_, rfl⟩
    rw [mul_comm]
    exact py_range_step_mem W rw (x / rw) (by omega)
      (div_lt_ceil_div x W rw (by omega) hx)

/-- Claim C10: for a source tile of positive size and any positive scale,
the resized tile dimensions are clamped to at least one pixel each, so the
tiling loops use a positive step, and every output pixel is covered by a
tile pasted at a coordinate that is a multiple of the tile dimensions. -/
theorem C10_pattern_tiling (pw ph : Nat) (scale : ℚ)
    (hpw : 1 ≤ pw) (hph : 1 ≤ ph) (hs : 0 < scale) :
    1 ≤ (resized_panel_size pw ph scale).1 ∧
    1 ≤ (resized_panel_size pw ph scale).2 ∧
    (∀ W H x y : Nat, x < W → y < H →
      ∃ p ∈ paste_positions W H (resized_panel_size pw ph scale).1
          (resized_panel_size pw ph scale).2,
        (resized_panel_size pw ph scale).1 ∣ p.1 ∧
        (resized_panel_size pw ph scale).2 ∣ p.2 ∧
        p.1 ≤ x ∧ x < p.1 + (resized_panel_size pw ph scale).1 ∧
        p.2 ≤ y ∧ y < p.2 + (resized_panel_size pw ph scale).2) := by
  have h1 : 1 ≤ (resized_panel_size pw ph scale).1 := by
    unfold resized_panel_size
    split
    · exact le_max_left 1 _
    · exact hpw
  have h2 : 1 ≤ (resized_panel_size pw ph scale).2 := by
    unfold resized_panel_size
    split
    · exact le_max_left 1 _
    · exact hph
  exact ⟨h1, h2, fun W H x y hx hy =>
    paste_positions_cover W H _ _ x y h1 h2 hx hy⟩

/-- Witness for C10: a 3-by-2 tile at scale 1/2 resizes to a 1-by-1 tile,
and pixel (1, 1) of a 2-by-2 output is covered. -/
theorem C10_pattern_tiling_witness :
    1 ≤ (resized_panel_size 3 2 (1/2)).1 ∧
    1 ≤ (resized_panel_size 3 2 (1/2)).2 ∧
    ∃ p ∈ paste_positions 2 2 (resized_panel_size 3 2 (1/2)).1
        (resized_panel_size 3 2 (1/2)).2,
      (resized_panel_size 3 2 (1/2)).1 ∣ p.1 ∧
      (resized_panel_size 3 2 (1/2)).2 ∣ p.2 ∧
      p.1 ≤ 1 ∧ 1 < p.1 + (resized_panel_size 3 2 (1/2)).1 ∧
      p.2 ≤ 1 ∧ 1 < p.2 + (resized_panel_size 3 2 (1/2)).2 := by
  have h := C10_pattern_tiling 3 2 (1/2) (by decide) (by decide) (by norm_num)
  exact ⟨h.1, h.2.1, h.2.2 2 2 1 1 (by decide) (by decide)⟩

end PsdVector
